import Mathlib

/-!
Verification of the keystroke-tracking core: the tokenizer (time-gap and
word-boundary segmentation), the live statistics engine (rolling window,
streaks, milestones), and the aggregation store (normalized keystroke rows
and hourly upserts). Every definition is a shallow embedding of the
corresponding Rust item; timestamps are integers (milliseconds) for the
tokenizer and rationals (seconds) for the statistics engine.
-/

namespace Kstrk

/-! ## Data model (capture/keymap.rs, capture/mod.rs) -/

/-- Arrow-key direction, mirroring the ArrowDirection enum. -/
inductive ArrowDirection where
  | Up
  | Down
  | Left
  | Right
deriving DecidableEq, Repr

/-- Modifier keys, mirroring the ModifierKey enum. -/
inductive ModifierKey where
  | Shift
  | Control
  | Option
  | Command
  | CapsLock
  | Function
deriving DecidableEq, Repr

/-- Special (non-character) keys, mirroring the SpecialKey enum. -/
inductive SpecialKey where
  | Return
  | Tab
  | Escape
  | Delete
  | Backspace
  | Space
  | ForwardDelete
  | Home
  | End
  | PageUp
  | PageDown
deriving DecidableEq, Repr

/-- Key category, mirroring the KeyType enum of keymap.rs. -/
inductive KeyType where
  | Character : Char → KeyType
  | Arrow : ArrowDirection → KeyType
  | Modifier : ModifierKey → KeyType
  | Special : SpecialKey → KeyType
  | Function : Nat → KeyType
  | Unknown : Nat → KeyType
deriving DecidableEq, Repr

/-- Modifier flag set, mirroring the Modifiers struct. -/
structure Modifiers where
  shift : Bool
  control : Bool
  option : Bool
  command : Bool
deriving DecidableEq, Repr

/-- Normalized key event, mirroring the KeyEvent struct of capture/mod.rs.
Timestamps are integer milliseconds. -/
structure KeyEvent where
  keycode : Nat
  key_type : KeyType
  timestamp : Int
  modifiers : Modifiers
deriving DecidableEq, Repr

/-! ## Tokenizer (tokenize/mod.rs) -/

/-- Tokenizer configuration, mirroring TokenizerConfig. -/
structure TokenizerConfig where
  gap_threshold_ms : Nat
  min_token_length : Nat
deriving DecidableEq, Repr

/-- Emitted token, mirroring the Token struct. -/
structure Token where
  content : String
  started_at : Int
  ended_at : Int
  key_count : Nat
deriving DecidableEq, Repr

/-- Tokenizer state, mirroring the Tokenizer struct. -/
structure Tokenizer where
  config : TokenizerConfig
  buffer : List KeyEvent
  last_timestamp : Option Int
deriving DecidableEq, Repr

/-- The character an event contributes to token content, mirroring the
filter_map arm of Tokenizer::flush: only the Character variant yields one. -/
def charOf (e : KeyEvent) : Option Char :=
  match e.key_type with
  | KeyType.Character c => some c
  | _ => none

/-- Whether the event is the word-boundary (space) key, mirroring the
matches! test in Tokenizer::process. -/
def isSpaceKey (k : KeyType) : Bool :=
  match k with
  | KeyType.Special SpecialKey.Space => true
  | _ => false

/-- Tokenizer::flush. Returns the emitted token (if any) together with the
post-call state. The middle match arm mirrors the Rust code exactly: the
early-return question-mark on first() corresponds to the empty-buffer arm,
which is unreachable because content is non-empty there. -/
def Tokenizer.flush (t : Tokenizer) : Option Token × Tokenizer :=
  if t.buffer.length < t.config.min_token_length then
    (none, { t with buffer := [] })
  else
    let chars := t.buffer.filterMap charOf
    if chars.isEmpty then
      (none, { t with buffer := [] })
    else
      match t.buffer with
      | [] => (none, t)
      | f :: rest =>
          (some { content := String.mk chars,
                  started_at := f.timestamp,
                  ended_at := ((f :: rest).getLast (List.cons_ne_nil f rest)).timestamp,
                  key_count := t.buffer.length },
           { t with buffer := [] })

/-- The no-gap tail of Tokenizer::process: the space check followed by the
default append, mirroring lines 77 to 86 of tokenize/mod.rs. -/
def Tokenizer.processNoGap (t : Tokenizer) (e : KeyEvent) : Option Token × Tokenizer :=
  if isSpaceKey e.key_type then
    let r := t.flush
    (r.1, { r.2 with last_timestamp := some e.timestamp })
  else
    (none, { t with buffer := t.buffer ++ [e], last_timestamp := some e.timestamp })

/-- Tokenizer::process: the time-gap check, then the space check, then the
default append. -/
def Tokenizer.process (t : Tokenizer) (e : KeyEvent) : Option Token × Tokenizer :=
  match t.last_timestamp with
  | some last =>
      if (t.config.gap_threshold_ms : Int) < e.timestamp - last then
        let r := t.flush
        (r.1, { r.2 with buffer := r.2.buffer ++ [e], last_timestamp := some e.timestamp })
      else
        t.processNoGap e
  | none => t.processNoGap e

/-- Feed a list of events through the tokenizer, collecting emitted tokens. -/
def runTokenizer : Tokenizer → List KeyEvent → List Token × Tokenizer
  | t, [] => ([], t)
  | t, e :: es =>
      let r := t.process e
      let rest := runTokenizer r.2 es
      (r.1.toList ++ rest.1, rest.2)

/-- A fresh tokenizer, mirroring Tokenizer::new. -/
def Tokenizer.new (c : TokenizerConfig) : Tokenizer :=
  { config := c, buffer := [], last_timestamp := none }

/-! ### Tokenizer lemmas -/

/-- Flush always leaves the buffer empty: every reachable branch clears it,
and the early-return arm requires an empty buffer to begin with. -/
theorem flush_buffer_empty (t : Tokenizer) : (t.flush).2.buffer = [] := by
  unfold Tokenizer.flush
  by_cases h1 : t.buffer.length < t.config.min_token_length
  · simp [h1]
  · simp only [h1, if_false]
    by_cases h2 : (t.buffer.filterMap charOf).isEmpty
    · simp [h2]
    · simp only [h2]
      match h : t.buffer with
      | [] => simp [h] at h2
      | f :: rest => simp

/-- Flush never touches the configuration or the last timestamp. -/
theorem flush_frame (t : Tokenizer) :
    (t.flush).2.config = t.config ∧ (t.flush).2.last_timestamp = t.last_timestamp := by
  unfold Tokenizer.flush
  by_cases h1 : t.buffer.length < t.config.min_token_length
  · simp [h1]
  · simp only [h1, if_false]
    by_cases h2 : (t.buffer.filterMap charOf).isEmpty
    · simp [h2]
    · simp only [h2]
      match h : t.buffer with
      | [] => simp
      | f :: rest => simp

/-- Claim C1: when the previous timestamp exists and the incoming event is
later by more than the gap threshold, process first flushes the buffer,
then retains the event as the sole element of the new buffer (even when the
event is itself the space key), updates the last timestamp, and returns the
flush result. -/
theorem spec_c1 (t : Tokenizer) (e : KeyEvent) (last : Int)
    (hlast : t.last_timestamp = some last)
    (hgap : (t.config.gap_threshold_ms : Int) < e.timestamp - last) :
    (t.process e).1 = (t.flush).1 ∧
    (t.process e).2.buffer = [e] ∧
    (t.process e).2.last_timestamp = some e.timestamp := by
  unfold Tokenizer.process
  rw [hlast]
  simp [hgap, flush_buffer_empty t]

/-- Sample character event for witnesses. -/
def evH : KeyEvent :=
  { keycode := 4, key_type := KeyType.Character 'h', timestamp := 0,
    modifiers := { shift := false, control := false, option := false, command := false } }

/-- Sample space event arriving 700 ms later, for witnesses. -/
def evSpace700 : KeyEvent :=
  { keycode := 49, key_type := KeyType.Special SpecialKey.Space, timestamp := 700,
    modifiers := { shift := false, control := false, option := false, command := false } }

/-- Sample tokenizer state holding one buffered event, for witnesses. -/
def tokSample : Tokenizer :=
  { config := { gap_threshold_ms := 500, min_token_length := 2 },
    buffer := [evH], last_timestamp := some 0 }

/-- Witness for C1 at a concrete state: a space arriving after a 700 ms gap
with threshold 500 ms is retained in the new buffer. -/
theorem spec_c1_witness :
    (tokSample.process evSpace700).1 = (tokSample.flush).1 ∧
    (tokSample.process evSpace700).2.buffer = [evSpace700] ∧
    (tokSample.process evSpace700).2.last_timestamp = some evSpace700.timestamp :=
  spec_c1 tokSample evSpace700 0 rfl (by decide)

/-- Flush on a buffer shorter than the minimum token length: nothing is
emitted and the buffer is cleared. -/
theorem flush_short (t : Tokenizer)
    (h : t.buffer.length < t.config.min_token_length) :
    t.flush = (none, { t with buffer := [] }) := by
  unfold Tokenizer.flush
  simp [h]

/-- Flush on a buffer with no character-category event: nothing is emitted
and the buffer is cleared. -/
theorem flush_noChar (t : Tokenizer)
    (h : t.buffer.filterMap charOf = []) :
    (t.flush).1 = none ∧ (t.flush).2.buffer = [] := by
  unfold Tokenizer.flush
  by_cases h1 : t.buffer.length < t.config.min_token_length
  · simp [h1]
  · simp [h1, h]

/-- Flush on a long-enough buffer containing a character event emits the
token built from the character values, stamped with the first and last
buffered timestamps, counting every buffered event. -/
theorem flush_main (t : Tokenizer) (f : KeyEvent) (rest : List KeyEvent)
    (hb : t.buffer = f :: rest)
    (h1 : t.config.min_token_length ≤ t.buffer.length)
    (h2 : t.buffer.filterMap charOf ≠ []) :
    t.flush = (some { content := String.mk ((f :: rest).filterMap charOf),
                      started_at := f.timestamp,
                      ended_at := ((f :: rest).getLast (List.cons_ne_nil f rest)).timestamp,
                      key_count := (f :: rest).length },
               { t with buffer := [] }) := by
  unfold Tokenizer.flush
  rw [hb] at h1 h2 ⊢
  simp only [Nat.not_lt.2 h1, if_false]
  simp [List.isEmpty_iff, h2]

/-- Consecutive-gap bound: starting from an optional previous timestamp,
every event arrives within the threshold of its predecessor. -/
def noGapFrom (thr : Nat) : Option Int → List KeyEvent → Prop
  | _, [] => True
  | none, e :: es => noGapFrom thr (some e.timestamp) es
  | some l, e :: es => e.timestamp - l ≤ (thr : Int) ∧ noGapFrom thr (some e.timestamp) es

/-- Processing a stream with no boundary key and no oversized gap emits no
token and appends every event to the buffer, leaving the configuration
untouched. -/
theorem run_no_flush (es : List KeyEvent) :
    ∀ t : Tokenizer,
      (∀ e ∈ es, isSpaceKey e.key_type = false) →
      noGapFrom t.config.gap_threshold_ms t.last_timestamp es →
      (runTokenizer t es).1 = [] ∧
      (runTokenizer t es).2.buffer = t.buffer ++ es ∧
      (runTokenizer t es).2.config = t.config := by
  induction es with
  | nil =>
      intro t _ _
      simp [runTokenizer]
  | cons e es ih =>
      intro t hsp hgap
      have hspe : isSpaceKey e.key_type = false := hsp e (by simp)
      have hstep : t.process e =
          (none, { t with buffer := t.buffer ++ [e], last_timestamp := some e.timestamp }) := by
        unfold Tokenizer.process Tokenizer.processNoGap
        cases hl : t.last_timestamp with
        | none => simp [hspe]
        | some l =>
            rw [hl] at hgap
            simp only [noGapFrom] at hgap
            have hng : ¬ ((t.config.gap_threshold_ms : Int) < e.timestamp - l) :=
              not_lt.2 hgap.1
            simp [hng, hspe]
      have htail : noGapFrom t.config.gap_threshold_ms (some e.timestamp) es := by
        cases hl : t.last_timestamp with
        | none =>
            rw [hl] at hgap
            simpa [noGapFrom] using hgap
        | some l =>
            rw [hl] at hgap
            simp only [noGapFrom] at hgap
            exact hgap.2
      have ihr := ih { t with buffer := t.buffer ++ [e], last_timestamp := some e.timestamp }
        (fun x hx => hsp x (by simp [hx])) htail
      simp only [runTokenizer, hstep]
      refine ⟨by simpa using ihr.1, ?_, by simpa using ihr.2.2⟩
      have := ihr.2.1
      simp at this
      simp [this]

/-- Claim C2: the flush rule. A buffer shorter than the minimum length, or
one with no character-category event, flushes to nothing and is cleared;
otherwise exactly one token is emitted whose content concatenates the
character values in buffer order, stamped with the first and last buffered
timestamps and counting every buffered event, and the buffer is cleared.
Flush of an empty buffer returns nothing, and a stream with no oversized
gap and no boundary key that stays below the minimum length never yields a
token. -/
theorem spec_c2 :
    (∀ t : Tokenizer,
      (t.buffer.length < t.config.min_token_length ∨ (∀ e ∈ t.buffer, charOf e = none)) →
        (t.flush).1 = none ∧ (t.flush).2.buffer = []) ∧
    (∀ t : Tokenizer, t.config.min_token_length ≤ t.buffer.length →
      (∃ e ∈ t.buffer, charOf e ≠ none) →
      ∃ tok, (t.flush).1 = some tok ∧
        tok.content = String.mk (t.buffer.filterMap charOf) ∧
        (∃ f, t.buffer.head? = some f ∧ tok.started_at = f.timestamp) ∧
        (∃ l, t.buffer.getLast? = some l ∧ tok.ended_at = l.timestamp) ∧
        tok.key_count = t.buffer.length ∧ (t.flush).2.buffer = []) ∧
    (∀ t : Tokenizer, t.buffer = [] → (t.flush).1 = none ∧ (t.flush).2.buffer = []) ∧
    (∀ (cfg : TokenizerConfig) (es : List KeyEvent),
      (∀ e ∈ es, isSpaceKey e.key_type = false) →
      noGapFrom cfg.gap_threshold_ms none es →
      es.length < cfg.min_token_length →
      (runTokenizer (Tokenizer.new cfg) es).1 = [] ∧
      ((runTokenizer (Tokenizer.new cfg) es).2.flush).1 = none) := by
  refine ⟨?_, ?_, ?_, ?_⟩
  · intro t h
    rcases h with h | h
    · rw [flush_short t h]
      exact ⟨rfl, rfl⟩
    · exact flush_noChar t (List.filterMap_eq_nil_iff.2 h)
  · intro t h1 h2
    have hne : t.buffer.filterMap charOf ≠ [] := by
      rw [Ne, List.filterMap_eq_nil_iff]
      push_neg
      rcases h2 with ⟨e, he, hc⟩
      exact ⟨e, he, hc⟩
    have hbufne : t.buffer ≠ [] := by
      intro hb
      rw [hb] at hne
      exact hne rfl
    rcases List.exists_cons_of_ne_nil hbufne with ⟨f, rest, hb⟩
    have hfl := flush_main t f rest hb h1 hne
    refine ⟨{ content := String.mk ((f :: rest).filterMap charOf),
              started_at := f.timestamp,
              ended_at := ((f :: rest).getLast (List.cons_ne_nil f rest)).timestamp,
              key_count := (f :: rest).length }, ?_, ?_, ?_, ?_, ?_, ?_⟩
    · rw [hfl]
    · rw [hb]
    · exact ⟨f, by rw [hb]; rfl, rfl⟩
    · refine ⟨(f :: rest).getLast (List.cons_ne_nil f rest), ?_, rfl⟩
      rw [hb]
      exact List.getLast?_eq_getLast _ _
    · rw [hb]
    · rw [hfl]
  · intro t hb
    apply flush_noChar
    simp [hb]
  · intro cfg es hsp hgap hlen
    have hr := run_no_flush es (Tokenizer.new cfg) hsp hgap
    refine ⟨hr.1, ?_⟩
    have hbuf : (runTokenizer (Tokenizer.new cfg) es).2.buffer = es := by
      simpa [Tokenizer.new] using hr.2.1
    have hcfg : (runTokenizer (Tokenizer.new cfg) es).2.config = cfg := by
      simpa [Tokenizer.new] using hr.2.2
    have : (runTokenizer (Tokenizer.new cfg) es).2.buffer.length <
        (runTokenizer (Tokenizer.new cfg) es).2.config.min_token_length := by
      rw [hbuf, hcfg]
      exact hlen
    rw [flush_short _ this]

/-- Sample second character event for witnesses. -/
def evI : KeyEvent :=
  { keycode := 34, key_type := KeyType.Character 'i', timestamp := 50,
    modifiers := { shift := false, control := false, option := false, command := false } }

/-- Sample tokenizer holding the two-character buffer hi, for witnesses. -/
def tokHI : Tokenizer :=
  { config := { gap_threshold_ms := 500, min_token_length := 2 },
    buffer := [evH, evI], last_timestamp := some 50 }

/-- Witness for C2 at a concrete buffer: flushing the two-character buffer
hi emits a token with that content and both timestamps. -/
theorem spec_c2_witness :
    ∃ tok, (tokHI.flush).1 = some tok ∧
      tok.content = String.mk (tokHI.buffer.filterMap charOf) ∧
      (∃ f, tokHI.buffer.head? = some f ∧ tok.started_at = f.timestamp) ∧
      (∃ l, tokHI.buffer.getLast? = some l ∧ tok.ended_at = l.timestamp) ∧
      tok.key_count = tokHI.buffer.length ∧ (tokHI.flush).2.buffer = [] :=
  spec_c2.2.1 tokHI (by decide) ⟨evH, by decide, by decide⟩

/-- A token emitted by flush has exactly the character values of the
buffered character-category events as its content. -/
theorem flush_content (t : Tokenizer) (tok : Token)
    (h : (t.flush).1 = some tok) :
    tok.content.data = t.buffer.filterMap charOf := by
  unfold Tokenizer.flush at h
  by_cases h1 : t.buffer.length < t.config.min_token_length
  · simp [h1] at h
  · simp only [h1, if_false] at h
    by_cases h2 : (t.buffer.filterMap charOf).isEmpty
    · simp [h2] at h
    · simp only [h2] at h
      match hb : t.buffer with
      | [] =>
          rw [hb] at h
          simp at h
      | f :: rest =>
          rw [hb] at h
          simp at h
          rw [← h]

/-- Any token produced by process comes from a flush of the pre-call
buffer. -/
theorem process_tok (t : Tokenizer) (e : KeyEvent) (tok : Token)
    (h : (t.process e).1 = some tok) : (t.flush).1 = some tok := by
  unfold Tokenizer.process Tokenizer.processNoGap at h
  cases hl : t.last_timestamp with
  | none =>
      rw [hl] at h
      by_cases hs : isSpaceKey e.key_type
      · simpa [hs] using h
      · simp [hs] at h
  | some l =>
      rw [hl] at h
      by_cases hg : (t.config.gap_threshold_ms : Int) < e.timestamp - l
      · simpa [hg] using h
      · simp only [hg, if_false] at h
        by_cases hs : isSpaceKey e.key_type
        · simpa [hs] using h
        · simp [hs] at h

/-- Every event in the post-call buffer is either a pre-call buffered event
or the incoming event. -/
theorem process_buffer_sub (t : Tokenizer) (e : KeyEvent) :
    ∀ x ∈ (t.process e).2.buffer, x ∈ t.buffer ++ [e] := by
  intro x hx
  unfold Tokenizer.process Tokenizer.processNoGap at hx
  cases hl : t.last_timestamp with
  | none =>
      rw [hl] at hx
      by_cases hs : isSpaceKey e.key_type
      · simp [hs, flush_buffer_empty t] at hx
      · simp [hs] at hx
        simpa using hx
  | some l =>
      rw [hl] at hx
      by_cases hg : (t.config.gap_threshold_ms : Int) < e.timestamp - l
      · simp [hg, flush_buffer_empty t] at hx
        simp [hx]
      · simp only [hg, if_false] at hx
        by_cases hs : isSpaceKey e.key_type
        · simp [hs, flush_buffer_empty t] at hx
        · simp [hs] at hx
          simpa using hx

/-- Every character of every token emitted by a run is the value of a
character-category event drawn from the initial buffer or the stream. -/
theorem run_content (es : List KeyEvent) :
    ∀ (t : Tokenizer) (tok : Token), tok ∈ (runTokenizer t es).1 →
      ∀ c ∈ tok.content.data, ∃ e ∈ t.buffer ++ es, e.key_type = KeyType.Character c := by
  induction es with
  | nil =>
      intro t tok htok
      simp [runTokenizer] at htok
  | cons e es ih =>
      intro t tok htok c hc
      simp only [runTokenizer, List.mem_append] at htok
      rcases htok with htok | htok
      · have hsome : (t.process e).1 = some tok := by
          cases hr : (t.process e).1 with
          | none => rw [hr] at htok; simp at htok
          | some tk =>
              rw [hr] at htok
              simp at htok
              rw [htok]
        have hfl := process_tok t e tok hsome
        have hdata := flush_content t tok hfl
        rw [hdata] at hc
        rcases List.mem_filterMap.1 hc with ⟨x, hx, hcx⟩
        refine ⟨x, by simp [hx], ?_⟩
        unfold charOf at hcx
        cases hk : x.key_type <;> rw [hk] at hcx <;> simp at hcx
        rw [hcx]
      · rcases ih (t.process e).2 tok htok c hc with ⟨x, hx, hk⟩
        rcases List.mem_append.1 hx with hx | hx
        · have := process_buffer_sub t e x hx
          rcases List.mem_append.1 this with hx2 | hx2
          · exact ⟨x, by simp [hx2], hk⟩
          · simp at hx2
            exact ⟨x, by simp [hx2], hk⟩
        · exact ⟨x, by simp [hx], hk⟩

/-- Claim C8: the word-boundary key never contributes to token content. A
space arriving without a qualifying gap flushes the buffer and is discarded
entirely, and every character of every emitted token comes from a
character-category event, a category the space key never has. -/
theorem spec_c8 :
    (∀ (t : Tokenizer) (e : KeyEvent),
      (t.last_timestamp = none ∨
        ∃ l, t.last_timestamp = some l ∧ e.timestamp - l ≤ (t.config.gap_threshold_ms : Int)) →
      isSpaceKey e.key_type = true →
      (t.process e).1 = (t.flush).1 ∧
      (t.process e).2.buffer = [] ∧
      (t.process e).2.last_timestamp = some e.timestamp) ∧
    (∀ (t : Tokenizer) (es : List KeyEvent) (tok : Token), tok ∈ (runTokenizer t es).1 →
      ∀ c ∈ tok.content.data, ∃ e ∈ t.buffer ++ es, e.key_type = KeyType.Character c) ∧
    (∀ c : Char, isSpaceKey (KeyType.Character c) = false) := by
  refine ⟨?_, ?_, fun c => rfl⟩
  · intro t e hng hs
    unfold Tokenizer.process Tokenizer.processNoGap
    rcases hng with hl | ⟨l, hl, hle⟩
    · rw [hl]
      simp [hs, flush_buffer_empty t]
    · rw [hl]
      have hg : ¬ ((t.config.gap_threshold_ms : Int) < e.timestamp - l) := not_lt.2 hle
      simp [hg, hs, flush_buffer_empty t]
  · intro t es tok htok c hc
    exact run_content es t tok htok c hc

/-- Sample space event arriving 50 ms after the buffer hi, for witnesses. -/
def evSpace100 : KeyEvent :=
  { keycode := 49, key_type := KeyType.Special SpecialKey.Space, timestamp := 100,
    modifiers := { shift := false, control := false, option := false, command := false } }

/-- Witness for C8 at a concrete state: a space with no qualifying gap is
discarded while the buffer hi is flushed. -/
theorem spec_c8_witness :
    (tokHI.process evSpace100).1 = (tokHI.flush).1 ∧
    (tokHI.process evSpace100).2.buffer = [] ∧
    (tokHI.process evSpace100).2.last_timestamp = some evSpace100.timestamp :=
  spec_c8.1 tokHI evSpace100 (Or.inr ⟨50, rfl, by decide⟩) rfl

/-! ## Live statistics engine (stats/mod.rs, stats/milestones.rs) -/

/-- Milestone entry, mirroring the Milestone struct of stats/milestones.rs.
Wall-clock instants are rationals. -/
structure Milestone where
  threshold : Nat
  name : String
  emoji : String
  reached_at : Option ℚ
deriving DecidableEq, Repr

/-- The canonical milestone catalogue, mirroring the MILESTONES constant. -/
def MILESTONES : List Milestone :=
  [ { threshold := 1000, name := "First Thousand", emoji := "🎯", reached_at := none },
    { threshold := 10000, name := "Ten Thousand Club", emoji := "🎖️", reached_at := none },
    { threshold := 100000, name := "Centurion", emoji := "💯", reached_at := none },
    { threshold := 1000000, name := "Millionaire", emoji := "🏆", reached_at := none },
    { threshold := 10000000, name := "Legend", emoji := "👑", reached_at := none } ]

/-- Live statistics state, mirroring the LiveStats struct. Monotonic
instants and the window duration are rationals measured in seconds; active
dates are integer day numbers. -/
structure LiveStats where
  recent_events : List ℚ
  window_duration : ℚ
  total_keystrokes : Nat
  session_start : ℚ
  current_streak : Nat
  last_active_date : Option Int
  milestones_reached : List Milestone
deriving DecidableEq, Repr

/-- LiveStats::new with the given window in seconds, started at the given
instant. -/
def LiveStats.new (window_secs : Nat) (now : ℚ) : LiveStats :=
  { recent_events := [], window_duration := (window_secs : ℚ), total_keystrokes := 0,
    session_start := now, current_streak := 0, last_active_date := none,
    milestones_reached := MILESTONES }

/-- The milestone scan of LiveStats::record: find the first entry that has
no reached_at and whose threshold is crossed, stamp it, and return it. -/
def unlockFirst (total : Nat) (now : ℚ) : List Milestone → Option Milestone × List Milestone
  | [] => (none, [])
  | m :: ms =>
      if m.reached_at = none ∧ m.threshold ≤ total then
        (some { m with reached_at := some now },
         { m with reached_at := some now } :: ms)
      else
        ((unlockFirst total now ms).1, m :: (unlockFirst total now ms).2)

/-- LiveStats::record. The instant now drives the window eviction and the
reached_at stamp, and today is the calendar date of the call. -/
def LiveStats.record (s : LiveStats) (now : ℚ) (today : Int) : Option Milestone × LiveStats :=
  let evs0 := s.recent_events ++ [now]
  let cutoff := now - s.window_duration
  let evs := evs0.dropWhile (fun t => decide (t < cutoff))
  let streak :=
    match s.last_active_date with
    | some last =>
        if today ≠ last then
          if today - last = 1 then s.current_streak + 1
          else if 1 < today - last then 1
          else s.current_streak
        else s.current_streak
    | none => 1
  let s1 : LiveStats :=
    { s with recent_events := evs, total_keystrokes := s.total_keystrokes + 1,
             current_streak := streak, last_active_date := some today }
  let r := unlockFirst s1.total_keystrokes now s1.milestones_reached
  (r.1, { s1 with milestones_reached := r.2 })

/-- LiveStats::apm: window population divided by the window in minutes. -/
def LiveStats.apm (s : LiveStats) : ℚ :=
  (s.recent_events.length : ℚ) / (s.window_duration / 60)

/-- LiveStats::kps: the recent sequence filtered to the trailing five
seconds, divided by five. -/
def LiveStats.kps (s : LiveStats) (now : ℚ) : ℚ :=
  ((s.recent_events.filter (fun t => decide (now - 5 ≤ t))).length : ℚ) / 5

/-- LiveStats::events_in_window. -/
def LiveStats.events_in_window (s : LiveStats) : Nat :=
  s.recent_events.length

/-- Apply a sequence of record calls, each given as an instant paired with
its calendar date. -/
def recordMany (s : LiveStats) : List (ℚ × Int) → LiveStats
  | [] => s
  | c :: cs => recordMany ((s.record c.1 c.2).2) cs

/-! ### Milestone scan lemmas -/

/-- When the scan unlocks nothing, the list is untouched and no entry was
eligible. -/
theorem unlockFirst_none (total : Nat) (now : ℚ) :
    ∀ ms : List Milestone, (unlockFirst total now ms).1 = none →
      (unlockFirst total now ms).2 = ms ∧
      ∀ m ∈ ms, ¬(m.reached_at = none ∧ m.threshold ≤ total) := by
  intro ms
  induction ms with
  | nil =>
      intro _
      exact ⟨rfl, by simp⟩
  | cons m ms ih =>
      intro h
      by_cases hq : m.reached_at = none ∧ m.threshold ≤ total
      · simp [unlockFirst, hq] at h
      · simp only [unlockFirst, if_neg hq] at h ⊢
        rcases ih h with ⟨h2, h3⟩
        refine ⟨by rw [h2], ?_⟩
        intro x hx
        rcases List.mem_cons.1 hx with rfl | hx
        · exact hq
        · exact h3 x hx

/-- When the scan unlocks an entry, it is the first eligible one: every
entry before it was ineligible, the entry had no reached_at and a crossed
threshold, and the list is updated only at that entry, stamped with now. -/
theorem unlockFirst_some (total : Nat) (now : ℚ) :
    ∀ (ms : List Milestone) (m : Milestone), (unlockFirst total now ms).1 = some m →
      ∃ pre m0 suf, ms = pre ++ m0 :: suf ∧
        (∀ x ∈ pre, ¬(x.reached_at = none ∧ x.threshold ≤ total)) ∧
        m0.reached_at = none ∧ m0.threshold ≤ total ∧
        m = { m0 with reached_at := some now } ∧
        (unlockFirst total now ms).2 = pre ++ { m0 with reached_at := some now } :: suf := by
  intro ms
  induction ms with
  | nil =>
      intro m h
      simp [unlockFirst] at h
  | cons x xs ih =>
      intro m h
      by_cases hq : x.reached_at = none ∧ x.threshold ≤ total
      · refine ⟨[], x, xs, by simp, by simp, hq.1, hq.2, ?_, ?_⟩
        · simp only [unlockFirst, if_pos hq] at h
          exact (Option.some.injEq _ _ ▸ h).symm
        · simp [unlockFirst, hq]
      · simp only [unlockFirst, if_neg hq] at h
        rcases ih m h with ⟨pre, m0, suf, hms, hpre, hr1, hr2, hm, h2⟩
        refine ⟨x :: pre, m0, suf, by rw [hms]; rfl, ?_, hr1, hr2, hm, ?_⟩
        · intro y hy
          rcases List.mem_cons.1 hy with rfl | hy
          · exact hq
          · exact hpre y hy
        · simp only [unlockFirst, if_neg hq]
          rw [h2]
          rfl

/-- The scan never changes the length of the milestone list. -/
theorem unlockFirst_length (total : Nat) (now : ℚ) :
    ∀ ms : List Milestone, (unlockFirst total now ms).2.length = ms.length := by
  intro ms
  induction ms with
  | nil => rfl
  | cons m ms ih =>
      by_cases hq : m.reached_at = none ∧ m.threshold ≤ total
      · simp [unlockFirst, hq]
      · simp [unlockFirst, hq, ih]

/-- Pointwise, the scan either leaves an entry alone or stamps reached_at
on an entry that had none, keeping every other field. -/
theorem unlockFirst_get (total : Nat) (now : ℚ) :
    ∀ (ms : List Milestone) (i : Nat),
      (unlockFirst total now ms).2[i]? = ms[i]? ∨
      ∃ m0, ms[i]? = some m0 ∧ m0.reached_at = none ∧
        (unlockFirst total now ms).2[i]? = some { m0 with reached_at := some now } := by
  intro ms
  induction ms with
  | nil =>
      intro i
      left
      rfl
  | cons m ms ih =>
      intro i
      by_cases hq : m.reached_at = none ∧ m.threshold ≤ total
      · cases i with
        | zero =>
            right
            exact ⟨m, by simp, hq.1, by simp [unlockFirst, hq]⟩
        | succ j =>
            left
            simp [unlockFirst, hq]
      · cases i with
        | zero =>
            left
            simp [unlockFirst, hq]
        | succ j =>
            have := ih j
            rcases this with h | ⟨m0, h1, h2, h3⟩
            · left
              simpa [unlockFirst, hq] using h
            · right
              exact ⟨m0, by simpa using h1, h2, by simpa [unlockFirst, hq] using h3⟩

/-- Record performs exactly the milestone scan on the incremented total:
this equality is definitional. -/
theorem record_milestones_def (s : LiveStats) (now : ℚ) (today : Int) :
    (s.record now today).1 = (unlockFirst (s.total_keystrokes + 1) now s.milestones_reached).1 ∧
    (s.record now today).2.milestones_reached =
      (unlockFirst (s.total_keystrokes + 1) now s.milestones_reached).2 :=
  ⟨rfl, rfl⟩

/-- Claim C3: each record call unlocks at most one milestone: the scan
walks the session list in order (the catalogue being strictly ascending in
threshold), stamps the first entry with no reached_at whose threshold is at
most the updated total, and returns it; when no entry qualifies the list is
untouched and nothing is returned. -/
theorem spec_c3 :
    (∀ (s : LiveStats) (now : ℚ) (today : Int),
      ((s.record now today).1 = none →
        (s.record now today).2.milestones_reached = s.milestones_reached ∧
        ∀ m ∈ s.milestones_reached, ¬(m.reached_at = none ∧ m.threshold ≤ s.total_keystrokes + 1)) ∧
      (∀ m, (s.record now today).1 = some m →
        ∃ pre m0 suf, s.milestones_reached = pre ++ m0 :: suf ∧
          (∀ x ∈ pre, ¬(x.reached_at = none ∧ x.threshold ≤ s.total_keystrokes + 1)) ∧
          m0.reached_at = none ∧ m0.threshold ≤ s.total_keystrokes + 1 ∧
          m = { m0 with reached_at := some now } ∧
          (s.record now today).2.milestones_reached =
            pre ++ { m0 with reached_at := some now } :: suf) ∧
      (s.record now today).2.total_keystrokes = s.total_keystrokes + 1) ∧
    List.Pairwise (fun a b => a.threshold < b.threshold) MILESTONES := by
  constructor
  · intro s now today
    rcases record_milestones_def s now today with ⟨hd1, hd2⟩
    refine ⟨?_, ?_, rfl⟩
    · intro h
      rw [hd1] at h
      rcases unlockFirst_none (s.total_keystrokes + 1) now s.milestones_reached h with ⟨h2, h3⟩
      exact ⟨by rw [hd2, h2], h3⟩
    · intro m h
      rw [hd1] at h
      rcases unlockFirst_some (s.total_keystrokes + 1) now s.milestones_reached m h with
        ⟨pre, m0, suf, hms, hpre, hr1, hr2, hm, h2⟩
      exact ⟨pre, m0, suf, hms, hpre, hr1, hr2, hm, by rw [hd2, h2]⟩
  · decide

/-- Sample statistics state one keystroke short of the first milestone, for
witnesses. -/
def statsM : LiveStats :=
  { recent_events := [], window_duration := 60, total_keystrokes := 999,
    session_start := 0, current_streak := 0, last_active_date := none,
    milestones_reached := MILESTONES }

/-- Witness for C3 at a concrete state: the thousandth keystroke unlocks
exactly the first catalogue entry. -/
theorem spec_c3_witness :
    ∃ pre m0 suf, statsM.milestones_reached = pre ++ m0 :: suf ∧
      (∀ x ∈ pre, ¬(x.reached_at = none ∧ x.threshold ≤ statsM.total_keystrokes + 1)) ∧
      m0.reached_at = none ∧ m0.threshold ≤ statsM.total_keystrokes + 1 ∧
      { threshold := 1000, name := "First Thousand", emoji := "🎯",
        reached_at := some 0 } = { m0 with reached_at := some (0 : ℚ) } ∧
      (statsM.record 0 0).2.milestones_reached =
        pre ++ { m0 with reached_at := some (0 : ℚ) } :: suf :=
  ((spec_c3.1 statsM 0 0).2.1)
    { threshold := 1000, name := "First Thousand", emoji := "🎯", reached_at := some 0 }
    (by decide)

/-- One record call keeps the milestone list length, keeps every entry's
threshold, name and emoji, and never touches an entry whose reached_at is
already set. -/
theorem record_milestones_step (s : LiveStats) (now : ℚ) (today : Int) :
    (s.record now today).2.milestones_reached.length = s.milestones_reached.length ∧
    (∀ i : Nat, ((s.record now today).2.milestones_reached[i]?).map Milestone.threshold =
        (s.milestones_reached[i]?).map Milestone.threshold ∧
      ((s.record now today).2.milestones_reached[i]?).map Milestone.name =
        (s.milestones_reached[i]?).map Milestone.name ∧
      ((s.record now today).2.milestones_reached[i]?).map Milestone.emoji =
        (s.milestones_reached[i]?).map Milestone.emoji) ∧
    (∀ (i : Nat) (m0 : Milestone), s.milestones_reached[i]? = some m0 → ∀ v, m0.reached_at = some v →
      (s.record now today).2.milestones_reached[i]? = some m0) := by
  rcases record_milestones_def s now today with ⟨_, hd2⟩
  rw [hd2]
  refine ⟨unlockFirst_length _ _ _, ?_, ?_⟩
  · intro i
    rcases unlockFirst_get (s.total_keystrokes + 1) now s.milestones_reached i with
      h | ⟨m0, h1, _, h3⟩
    · rw [h]
      exact ⟨rfl, rfl, rfl⟩
    · rw [h1, h3]
      exact ⟨rfl, rfl, rfl⟩
  · intro i m0 h1 v h2
    rcases unlockFirst_get (s.total_keystrokes + 1) now s.milestones_reached i with
      h | ⟨m1, h3, h4, _⟩
    · rw [h, h1]
    · rw [h1] at h3
      have : m0 = m1 := by
        have := Option.some.injEq m0 m1 ▸ h3
        simpa using h3
      rw [this, h4] at h2
      exact absurd h2 (by simp)

/-- Claim C4: across any sequence of record calls, the milestone list keeps
its length and the threshold, name and emoji at every position, and an
entry whose reached_at is set is never cleared or changed again. -/
theorem spec_c4 (s : LiveStats) (calls : List (ℚ × Int)) :
    (recordMany s calls).milestones_reached.length = s.milestones_reached.length ∧
    (∀ i : Nat, ((recordMany s calls).milestones_reached[i]?).map Milestone.threshold =
        (s.milestones_reached[i]?).map Milestone.threshold ∧
      ((recordMany s calls).milestones_reached[i]?).map Milestone.name =
        (s.milestones_reached[i]?).map Milestone.name ∧
      ((recordMany s calls).milestones_reached[i]?).map Milestone.emoji =
        (s.milestones_reached[i]?).map Milestone.emoji) ∧
    (∀ (i : Nat) (m0 : Milestone), s.milestones_reached[i]? = some m0 → ∀ v, m0.reached_at = some v →
      (recordMany s calls).milestones_reached[i]? = some m0) := by
  induction calls generalizing s with
  | nil =>
      refine ⟨rfl, fun i => ⟨rfl, rfl, rfl⟩, ?_⟩
      intro i m0 h1 v _
      exact h1
  | cons c cs ih =>
      rcases record_milestones_step s c.1 c.2 with ⟨hlen, hmap, hkeep⟩
      rcases ih ((s.record c.1 c.2).2) with ⟨ihlen, ihmap, ihkeep⟩
      refine ⟨by rw [recordMany]; rw [ihlen, hlen], ?_, ?_⟩
      · intro i
        rcases ihmap i with ⟨ih1, ih2, ih3⟩
        rcases hmap i with ⟨h1, h2, h3⟩
        refine ⟨?_, ?_, ?_⟩
        · rw [recordMany]; rw [ih1, h1]
        · rw [recordMany]; rw [ih2, h2]
        · rw [recordMany]; rw [ih3, h3]
      · intro i m0 h1 v h2
        rw [recordMany]
        exact ihkeep i m0 (hkeep i m0 h1 v h2) v h2

/-- Sample statistics state whose only milestone is already reached, for
witnesses. -/
def statsR : LiveStats :=
  { recent_events := [], window_duration := 60, total_keystrokes := 2000,
    session_start := 0, current_streak := 0, last_active_date := none,
    milestones_reached :=
      [ { threshold := 1000, name := "First Thousand", emoji := "🎯", reached_at := some 7 } ] }

/-- Witness for C4 at a concrete state: a further record call leaves the
already-stamped milestone exactly as it was. -/
theorem spec_c4_witness :
    (recordMany statsR [(9, 3)]).milestones_reached[0]? =
      some { threshold := 1000, name := "First Thousand", emoji := "🎯", reached_at := some 7 } :=
  (spec_c4 statsR [(9, 3)]).2.2 0
    { threshold := 1000, name := "First Thousand", emoji := "🎯", reached_at := some 7 }
    rfl 7 rfl

/-! ### Streak update (claim C5) -/

/-- Sample statistics state with an active streak whose last active date
lies in the future of the next call (a clock regression), refuting C5. -/
def statsBack : LiveStats :=
  { recent_events := [], window_duration := 60, total_keystrokes := 0,
    session_start := 0, current_streak := 5, last_active_date := some 10,
    milestones_reached := [] }

/-- Counterexample to C5 as stated: with last_active_date on day 10 and a
call on day 8 (no prior-date, same-day or next-day case applies), the claim
predicts a reset to 1, but the code leaves the streak at 5. -/
theorem spec_c5_counterexample :
    statsBack.last_active_date = some 10 ∧
    (8 : Int) ≠ 10 ∧ ¬((8 : Int) - 10 = 1) ∧
    statsBack.current_streak = 5 ∧
    (statsBack.record 0 8).2.current_streak = 5 ∧ (5 : Nat) ≠ 1 := by
  decide

/-- Claim C5 as amended: no prior date gives streak 1; the same day leaves
the streak unchanged; exactly one day later increments it; more than one
day later resets it to 1; a date strictly earlier than the last active date
leaves the streak unchanged; and last_active_date is set to today in every
branch, the no-change case included. -/
theorem spec_c5 (s : LiveStats) (now : ℚ) (today : Int) :
    (s.last_active_date = none → (s.record now today).2.current_streak = 1) ∧
    (∀ last, s.last_active_date = some last →
      ((today = last → (s.record now today).2.current_streak = s.current_streak) ∧
       (today - last = 1 → (s.record now today).2.current_streak = s.current_streak + 1) ∧
       (1 < today - last → (s.record now today).2.current_streak = 1) ∧
       (today ≠ last → today - last < 1 →
         (s.record now today).2.current_streak = s.current_streak))) ∧
    (s.record now today).2.last_active_date = some today := by
  have hstreak : (s.record now today).2.current_streak =
      (match s.last_active_date with
       | some last =>
           if today ≠ last then
             if today - last = 1 then s.current_streak + 1
             else if 1 < today - last then 1
             else s.current_streak
           else s.current_streak
       | none => 1) := rfl
  refine ⟨?_, ?_, rfl⟩
  · intro hl
    rw [hstreak, hl]
  · intro last hl
    rw [hstreak, hl]
    refine ⟨?_, ?_, ?_, ?_⟩
    · intro h
      simp [h]
    · intro h
      have hne : today ≠ last := by omega
      simp [hne, h]
    · intro h
      have hne : today ≠ last := by omega
      have h1 : ¬(today - last = 1) := by omega
      simp [hne, h1, h]
    · intro hne h
      have h1 : ¬(today - last = 1) := by omega
      have h2 : ¬(1 < today - last) := by omega
      simp [hne, h1, h2]

/-- Witness for the amended C5 at a concrete state: a call dated before the
last active date leaves the streak at 5. -/
theorem spec_c5_witness :
    (statsBack.record 0 8).2.current_streak = statsBack.current_streak :=
  (((spec_c5 statsBack 0 8).2.1 10 rfl).2.2.2) (by decide) (by decide)

/-! ### Rolling window (claims C9 and C10) -/

/-- Record appends the new instant and evicts expired entries from the
front: this equality is definitional. -/
theorem record_recent_def (s : LiveStats) (now : ℚ) (today : Int) :
    (s.record now today).2.recent_events =
      (s.recent_events ++ [now]).dropWhile (fun t => decide (t < now - s.window_duration)) :=
  rfl

/-- A dropWhile whose predicate fails on every element drops nothing. -/
theorem dropWhile_of_all_false {p : ℚ → Bool} :
    ∀ l : List ℚ, (∀ x ∈ l, p x = false) → l.dropWhile p = l := by
  intro l h
  cases l with
  | nil => rfl
  | cons a l =>
      rw [List.dropWhile_cons]
      simp [h a (by simp)]

/-- When every retained instant is still within the window of now, record
evicts nothing. -/
theorem record_no_evict (s : LiveStats) (now : ℚ) (today : Int)
    (hw : 0 ≤ s.window_duration)
    (h : ∀ t ∈ s.recent_events, now - s.window_duration ≤ t) :
    (s.record now today).2.recent_events = s.recent_events ++ [now] := by
  rw [record_recent_def]
  apply dropWhile_of_all_false
  intro x hx
  rcases List.mem_append.1 hx with hx | hx
  · simp only [decide_eq_false_iff_not, not_lt]
    exact h x hx
  · simp only [List.mem_singleton] at hx
    subst hx
    simp only [decide_eq_false_iff_not, not_lt]
    linarith

/-- Feeding instants that all lie within one window of each other retains
every one of them, and the window setting never changes. -/
theorem recordMany_all_within (ts : List ℚ) :
    ∀ (s : LiveStats) (today : Int),
      0 ≤ s.window_duration →
      (∀ a ∈ ts, ∀ b ∈ ts, a - b ≤ s.window_duration) →
      (∀ x ∈ s.recent_events, ∀ b ∈ ts, b - s.window_duration ≤ x) →
      (recordMany s (ts.map (fun t => (t, today)))).recent_events = s.recent_events ++ ts ∧
      (recordMany s (ts.map (fun t => (t, today)))).window_duration = s.window_duration := by
  induction ts with
  | nil =>
      intro s today _ _ _
      simp [recordMany]
  | cons t0 ts ih =>
      intro s today hw hts hrec
      have hstep : (s.record t0 today).2.recent_events = s.recent_events ++ [t0] := by
        apply record_no_evict s t0 today hw
        intro t ht
        have := hrec t ht t0 (by simp)
        linarith
      have hwin : (s.record t0 today).2.window_duration = s.window_duration := rfl
      have hih := ih ((s.record t0 today).2) today (by rw [hwin]; exact hw)
        (fun a ha b hb => by
          rw [hwin]
          exact hts a (by simp [ha]) b (by simp [hb]))
        (fun x hx b hb => by
          rw [hwin]
          rw [hstep] at hx
          rcases List.mem_append.1 hx with hx | hx
          · exact hrec x hx b (by simp [hb])
          · simp only [List.mem_singleton] at hx
            subst hx
            have := hts b (by simp [hb]) x (by simp)
            linarith)
      simp only [List.map_cons, recordMany] at hih ⊢
      rw [hih.1, hih.2, hstep, hwin]
      simp

/-- Claim C9: starting a fresh engine with a window of W seconds and
recording N instants that all fit inside one window, every instant is
retained and apm equals N times 60 over W. -/
theorem spec_c9 (W : Nat) (start : ℚ) (today : Int) (ts : List ℚ)
    (_hW : 0 < W)
    (hts : ∀ a ∈ ts, ∀ b ∈ ts, a - b ≤ (W : ℚ)) :
    (recordMany (LiveStats.new W start) (ts.map (fun t => (t, today)))).recent_events = ts ∧
    (recordMany (LiveStats.new W start) (ts.map (fun t => (t, today)))).apm =
      (ts.length : ℚ) * 60 / (W : ℚ) := by
  have h := recordMany_all_within ts (LiveStats.new W start) today
    (by simp [LiveStats.new]) (by simpa [LiveStats.new] using hts)
    (by simp [LiveStats.new])
  have hrec : (recordMany (LiveStats.new W start) (ts.map (fun t => (t, today)))).recent_events = ts := by
    rw [h.1]
    simp [LiveStats.new]
  refine ⟨hrec, ?_⟩
  unfold LiveStats.apm
  rw [hrec, h.2]
  simp only [LiveStats.new]
  rw [div_div_eq_mul_div]

/-- Witness for C9 at a concrete stream: three instants inside a sixty
second window give apm three. -/
theorem spec_c9_witness :
    (recordMany (LiveStats.new 60 0) ([0, 1, 2].map (fun t => (t, 0)))).recent_events =
        [0, 1, 2] ∧
    (recordMany (LiveStats.new 60 0) ([0, 1, 2].map (fun t => (t, 0)))).apm =
      ((3 : Nat) : ℚ) * 60 / ((60 : Nat) : ℚ) :=
  spec_c9 60 0 0 [0, 1, 2] (by decide)
    (by
      intro a ha b hb
      fin_cases ha <;> fin_cases hb <;> norm_num)

/-- Record never changes the window setting: definitional. -/
theorem record_window (s : LiveStats) (now : ℚ) (today : Int) :
    (s.record now today).2.window_duration = s.window_duration :=
  rfl

/-- Claim C10: kps counts only instants retained in the apm window, so it
is at most events_in_window over five; with a one-second window, an instant
inside the trailing five seconds that was already evicted is not counted. -/
theorem spec_c10 :
    (∀ (s : LiveStats) (now : ℚ), s.kps now ≤ (s.events_in_window : ℚ) / 5) ∧
    ((recordMany (LiveStats.new 1 0) [(0, 0), (3, 0)]).window_duration = 1 ∧
     (1 : ℚ) < 5 ∧
     (recordMany (LiveStats.new 1 0) [(0, 0), (3, 0)]).recent_events = [3] ∧
     (3 : ℚ) - 5 ≤ 0 ∧
     (recordMany (LiveStats.new 1 0) [(0, 0), (3, 0)]).kps 3 = 1 / 5) := by
  have hmany : recordMany (LiveStats.new 1 0) [(0, 0), (3, 0)] =
      (((LiveStats.new 1 0).record 0 0).2.record 3 0).2 := by
    simp [recordMany]
  have h1 : ((LiveStats.new 1 0).record 0 0).2.recent_events = [0] := by
    rw [record_recent_def]
    norm_num [LiveStats.new, List.dropWhile]
  have hw1 : ((LiveStats.new 1 0).record 0 0).2.window_duration = (1 : ℚ) := by
    rw [record_window]
    norm_num [LiveStats.new]
  have hrec : (recordMany (LiveStats.new 1 0) [(0, 0), (3, 0)]).recent_events = [3] := by
    rw [hmany, record_recent_def, h1, hw1]
    norm_num [List.dropWhile]
  refine ⟨?_, ?_, by norm_num, hrec, by norm_num, ?_⟩
  · intro s now
    unfold LiveStats.kps LiveStats.events_in_window
    have h : ((s.recent_events.filter (fun t => decide (now - 5 ≤ t))).length : ℚ) ≤
        (s.recent_events.length : ℚ) := by
      exact_mod_cast List.length_filter_le _ _
    linarith
  · rw [hmany, record_window, hw1]
  · unfold LiveStats.kps
    rw [hrec]
    norm_num [List.filter]

/-! ## Aggregation store (storage/mod.rs), modelled relationally: row ids
are one-based positions in insertion order, matching SQLite rowids on the
append-only tables. -/

/-- A row of the keys table: window reference, count and start stamp. -/
structure KeyRecord where
  window_id : Nat
  key_count : Nat
  started_at : Int
deriving DecidableEq, Repr

/-- A row of the hourly_stats table. -/
structure HourlyRow where
  hour_bucket : Int
  key_type : String
  count : Nat
deriving DecidableEq, Repr

/-- The store state: the four tables the claims touch. Process rows are
names in insertion order; window rows are (process_id, title) pairs. -/
structure SqliteStorage where
  processes : List String
  windows : List (Nat × String)
  keys : List KeyRecord
  hourly_stats : List HourlyRow
deriving DecidableEq, Repr

/-- SqliteStorage::in_memory, an empty store with the schema in place. -/
def SqliteStorage.in_memory : SqliteStorage :=
  { processes := [], windows := [], keys := [], hourly_stats := [] }

/-- SqliteStorage::record_keystroke: get-or-create the process row, get-or-
create the window row, insert a fresh key row, return its rowid. -/
def SqliteStorage.record_keystroke (s : SqliteStorage) (process window : String)
    (key_count : Nat) (now : Int) : Nat × SqliteStorage :=
  let processes := if process ∈ s.processes then s.processes else s.processes ++ [process]
  let process_id := processes.indexOf process + 1
  let windows :=
    if (process_id, window) ∈ s.windows then s.windows
    else s.windows ++ [(process_id, window)]
  let window_id := windows.indexOf (process_id, window) + 1
  let keys := s.keys ++ [{ window_id := window_id, key_count := key_count, started_at := now }]
  (keys.length,
   { s with processes := processes, windows := windows, keys := keys })

/-- SqliteStorage::get_total_keystrokes: the sum of key_count over keys. -/
def SqliteStorage.get_total_keystrokes (s : SqliteStorage) : Nat :=
  (s.keys.map KeyRecord.key_count).sum

/-- Apply a sequence of record_keystroke calls, each (process, window,
count, stamp). -/
def applyRecords (s : SqliteStorage) : List (String × String × Nat × Int) → SqliteStorage
  | [] => s
  | c :: cs => applyRecords ((s.record_keystroke c.1 c.2.1 c.2.2.1 c.2.2.2).2) cs

/-- Index of an element at the head of a list. -/
theorem indexOf_head {α : Type} [BEq α] [LawfulBEq α] (a : α) (l : List α) :
    List.indexOf a (a :: l) = 0 := by
  simp [List.indexOf, List.findIdx_cons]

/-- One record_keystroke call appends exactly one key row, never rewriting
an existing one, and returns the fresh rowid. -/
theorem record_keystroke_append (s : SqliteStorage) (p w : String) (c : Nat) (n : Int) :
    (∃ wid, (s.record_keystroke p w c n).2.keys =
      s.keys ++ [{ window_id := wid, key_count := c, started_at := n }]) ∧
    (s.record_keystroke p w c n).1 = s.keys.length + 1 := by
  unfold SqliteStorage.record_keystroke
  exact ⟨⟨_, rfl⟩, by simp⟩

/-- Record_keystroke adds its count to the running total. -/
theorem record_keystroke_total (s : SqliteStorage) (p w : String) (c : Nat) (n : Int) :
    (s.record_keystroke p w c n).2.get_total_keystrokes = s.get_total_keystrokes + c := by
  rcases record_keystroke_append s p w c n with ⟨⟨wid, hk⟩, _⟩
  unfold SqliteStorage.get_total_keystrokes
  rw [hk]
  simp

/-- The store after one record_keystroke call on a fresh store. -/
def firstCallState (p w : String) (c1 : Nat) (n1 : Int) : SqliteStorage :=
  { processes := [p], windows := [(1, w)],
    keys := [{ window_id := 1, key_count := c1, started_at := n1 }],
    hourly_stats := [] }

/-- The store after two record_keystroke calls with the same pair on a
fresh store. -/
def secondCallState (p w : String) (c1 c2 : Nat) (n1 n2 : Int) : SqliteStorage :=
  { processes := [p], windows := [(1, w)],
    keys := [{ window_id := 1, key_count := c1, started_at := n1 },
             { window_id := 1, key_count := c2, started_at := n2 }],
    hourly_stats := [] }

/-- Claim C6: recording the same (process, window) pair twice on a fresh
store yields one process row, one window row and two key rows, each call
returning a fresh rowid; and over any call sequence the total equals the
sum of the recorded counts. -/
theorem spec_c6 :
    (∀ (p w : String) (c1 c2 : Nat) (n1 n2 : Int),
      ((SqliteStorage.in_memory.record_keystroke p w c1 n1).2.record_keystroke p w c2 n2).2.processes.length = 1 ∧
      ((SqliteStorage.in_memory.record_keystroke p w c1 n1).2.record_keystroke p w c2 n2).2.windows.length = 1 ∧
      ((SqliteStorage.in_memory.record_keystroke p w c1 n1).2.record_keystroke p w c2 n2).2.keys.length = 2 ∧
      (SqliteStorage.in_memory.record_keystroke p w c1 n1).1 = 1 ∧
      ((SqliteStorage.in_memory.record_keystroke p w c1 n1).2.record_keystroke p w c2 n2).1 = 2 ∧
      ((SqliteStorage.in_memory.record_keystroke p w c1 n1).2.record_keystroke p w c2 n2).2.get_total_keystrokes = c1 + c2) ∧
    (∀ (s : SqliteStorage) (p w : String) (c : Nat) (n : Int),
      (∃ wid, (s.record_keystroke p w c n).2.keys =
        s.keys ++ [{ window_id := wid, key_count := c, started_at := n }]) ∧
      (s.record_keystroke p w c n).1 = s.keys.length + 1) ∧
    (∀ (s : SqliteStorage) (calls : List (String × String × Nat × Int)),
      (applyRecords s calls).get_total_keystrokes =
        s.get_total_keystrokes + (calls.map (fun c => c.2.2.1)).sum) := by
  refine ⟨?_, fun s p w c n => record_keystroke_append s p w c n, ?_⟩
  · intro p w c1 c2 n1 n2
    have h1 : SqliteStorage.in_memory.record_keystroke p w c1 n1 =
        (1, firstCallState p w c1 n1) := by
      unfold SqliteStorage.record_keystroke SqliteStorage.in_memory firstCallState
      simp [indexOf_head]
    have h2 : (firstCallState p w c1 n1).record_keystroke p w c2 n2 =
        (2, secondCallState p w c1 c2 n1 n2) := by
      unfold SqliteStorage.record_keystroke firstCallState secondCallState
      simp [indexOf_head]
    rw [h1]
    simp [h2, secondCallState, SqliteStorage.get_total_keystrokes]
  · intro s calls
    induction calls generalizing s with
    | nil => simp [applyRecords]
    | cons c cs ih =>
        rw [applyRecords, ih, record_keystroke_total]
        simp
        omega

/-- Witness for C6 at concrete names and counts. -/
theorem spec_c6_witness :
    ((SqliteStorage.in_memory.record_keystroke "VSCode" "main.rs" 10 0).2.record_keystroke
        "VSCode" "main.rs" 20 1).2.processes.length = 1 ∧
    ((SqliteStorage.in_memory.record_keystroke "VSCode" "main.rs" 10 0).2.record_keystroke
        "VSCode" "main.rs" 20 1).2.windows.length = 1 ∧
    ((SqliteStorage.in_memory.record_keystroke "VSCode" "main.rs" 10 0).2.record_keystroke
        "VSCode" "main.rs" 20 1).2.keys.length = 2 ∧
    (SqliteStorage.in_memory.record_keystroke "VSCode" "main.rs" 10 0).1 = 1 ∧
    ((SqliteStorage.in_memory.record_keystroke "VSCode" "main.rs" 10 0).2.record_keystroke
        "VSCode" "main.rs" 20 1).1 = 2 ∧
    ((SqliteStorage.in_memory.record_keystroke "VSCode" "main.rs" 10 0).2.record_keystroke
        "VSCode" "main.rs" 20 1).2.get_total_keystrokes = 10 + 20 :=
  spec_c6.1 "VSCode" "main.rs" 10 20 0 1

/-! ### Hourly upsert (claim C7) -/

/-- The insert-or-increment of record_hourly_stat on the row list: the
first row matching the (hour_bucket, key_type) pair is incremented, and a
fresh row with count one is appended when none matches. -/
def upsertHourly (hour_bucket : Int) (key_type : String) : List HourlyRow → List HourlyRow
  | [] => [{ hour_bucket := hour_bucket, key_type := key_type, count := 1 }]
  | r :: rs =>
      if r.hour_bucket = hour_bucket ∧ r.key_type = key_type then
        { r with count := r.count + 1 } :: rs
      else
        r :: upsertHourly hour_bucket key_type rs

/-- SqliteStorage::record_hourly_stat. -/
def SqliteStorage.record_hourly_stat (s : SqliteStorage) (hour_bucket : Int)
    (key_type : String) : SqliteStorage :=
  { s with hourly_stats := upsertHourly hour_bucket key_type s.hourly_stats }

/-- Apply a sequence of record_hourly_stat calls. -/
def applyHourly (s : SqliteStorage) : List (Int × String) → SqliteStorage
  | [] => s
  | c :: cs => applyHourly (s.record_hourly_stat c.1 c.2) cs

/-- The rows of the hourly table holding a given (bucket, key type) pair. -/
def rowsFor (b : Int) (k : String) (rows : List HourlyRow) : List HourlyRow :=
  rows.filter (fun r => decide (r.hour_bucket = b ∧ r.key_type = k))

/-- Upserting a pair rewrites that pair's row slice: an empty slice becomes
the fresh count-one row, and otherwise the first row of the slice is
incremented. -/
theorem upsertHourly_rowsFor_same (b : Int) (k : String) :
    ∀ rows : List HourlyRow,
      rowsFor b k (upsertHourly b k rows) =
        (match rowsFor b k rows with
         | [] => [{ hour_bucket := b, key_type := k, count := 1 }]
         | r :: rest => { r with count := r.count + 1 } :: rest) := by
  intro rows
  induction rows with
  | nil => simp [rowsFor, upsertHourly]
  | cons r rs ih =>
      by_cases hm : r.hour_bucket = b ∧ r.key_type = k
      · simp [rowsFor, upsertHourly, hm, List.filter_cons]
      · have h1 : rowsFor b k (r :: rs) = rowsFor b k rs := by
          simp [rowsFor, List.filter_cons, hm]
        rw [upsertHourly]
        simp only [if_neg hm]
        have h2 : rowsFor b k (r :: upsertHourly b k rs) = rowsFor b k (upsertHourly b k rs) := by
          simp [rowsFor, List.filter_cons, hm]
        rw [h2, h1, ih]

/-- Upserting one pair leaves every other pair's row slice untouched. -/
theorem upsertHourly_rowsFor_other (b : Int) (k : String) (b2 : Int) (k2 : String)
    (hne : ¬(b2 = b ∧ k2 = k)) :
    ∀ rows : List HourlyRow,
      rowsFor b2 k2 (upsertHourly b k rows) = rowsFor b2 k2 rows := by
  intro rows
  induction rows with
  | nil =>
      simp only [upsertHourly, rowsFor, List.filter_cons]
      have : ¬((b : Int) = b2 ∧ k = k2) := fun h => hne ⟨h.1.symm, h.2.symm⟩
      simp [this]
  | cons r rs ih =>
      by_cases hm : r.hour_bucket = b ∧ r.key_type = k
      · have hr2 : ¬(r.hour_bucket = b2 ∧ r.key_type = k2) := by
          intro h
          exact hne ⟨h.1.symm.trans hm.1, h.2.symm.trans hm.2⟩
        have hcond : ¬((b : Int) = b2 ∧ k = k2) := fun h => hne ⟨h.1.symm, h.2.symm⟩
        simp [upsertHourly, hm, rowsFor, List.filter_cons, hr2, hcond]
      · rw [upsertHourly]
        simp only [if_neg hm]
        by_cases hr2 : r.hour_bucket = b2 ∧ r.key_type = k2
        · simp [rowsFor, List.filter_cons, hr2] at ih ⊢
          exact ih
        · simp [rowsFor, List.filter_cons, hr2] at ih ⊢
          exact ih

/-- Folding a call sequence over a table whose pair slices are described by
a count function g keeps that shape, adding each pair's number of calls. -/
theorem applyHourly_shape :
    ∀ (calls : List (Int × String)) (s : SqliteStorage) (g : Int → String → Nat),
      (∀ b k, rowsFor b k s.hourly_stats =
        (if g b k = 0 then [] else [{ hour_bucket := b, key_type := k, count := g b k }])) →
      ∀ b k, rowsFor b k (applyHourly s calls).hourly_stats =
        (if g b k + calls.count (b, k) = 0 then []
         else [{ hour_bucket := b, key_type := k, count := g b k + calls.count (b, k) }]) := by
  intro calls
  induction calls with
  | nil =>
      intro s g hg b k
      simpa [applyHourly] using hg b k
  | cons c cs ih =>
      intro s g hg b k
      rw [applyHourly]
      have hstep : ∀ b2 k2, rowsFor b2 k2 (s.record_hourly_stat c.1 c.2).hourly_stats =
          (if (fun b2 k2 => if b2 = c.1 ∧ k2 = c.2 then g b2 k2 + 1 else g b2 k2) b2 k2 = 0
           then []
           else [{ hour_bucket := b2, key_type := k2,
                   count := (fun b2 k2 => if b2 = c.1 ∧ k2 = c.2 then g b2 k2 + 1 else g b2 k2) b2 k2 }]) := by
        intro b2 k2
        by_cases hp : b2 = c.1 ∧ k2 = c.2
        · rcases hp with ⟨hb, hk⟩
          subst hb
          subst hk
          have hshow : (s.record_hourly_stat c.1 c.2).hourly_stats =
              upsertHourly c.1 c.2 s.hourly_stats := rfl
          rw [hshow, upsertHourly_rowsFor_same c.1 c.2 s.hourly_stats, hg c.1 c.2]
          by_cases h0 : g c.1 c.2 = 0
          · simp [h0]
          · simp [h0]
        · have hshow : (s.record_hourly_stat c.1 c.2).hourly_stats =
              upsertHourly c.1 c.2 s.hourly_stats := rfl
          rw [hshow, upsertHourly_rowsFor_other c.1 c.2 b2 k2 hp s.hourly_stats]
          rw [hg b2 k2]
          simp [hp]
      have := ih (s.record_hourly_stat c.1 c.2)
        (fun b2 k2 => if b2 = c.1 ∧ k2 = c.2 then g b2 k2 + 1 else g b2 k2) hstep b k
      rw [this]
      by_cases hp : b = c.1 ∧ k = c.2
      · have hcount : (c :: cs).count (b, k) = cs.count (b, k) + 1 := by
          rcases hp with ⟨hb, hk⟩
          subst hb
          subst hk
          simp [List.count_cons]
        rw [hcount]
        simp only [if_pos hp]
        have : g b k + 1 + cs.count (b, k) = g b k + (cs.count (b, k) + 1) := by omega
        rw [this]
      · have hcount : (c :: cs).count (b, k) = cs.count (b, k) := by
          have : ¬((b, k) = c) := by
            intro h
            apply hp
            constructor
            · exact congrArg Prod.fst h
            · exact congrArg Prod.snd h
          simp [List.count_cons, this]
        rw [hcount]
        simp only [if_neg hp]

/-- Claim C7: from a fresh store, after any sequence of record_hourly_stat
calls, every pair that appears in the sequence has exactly one row whose
count is the number of calls with that pair, and a pair that never appears
has no row. -/
theorem spec_c7 (calls : List (Int × String)) (b : Int) (k : String) :
    ((b, k) ∈ calls →
      rowsFor b k (applyHourly SqliteStorage.in_memory calls).hourly_stats =
        [{ hour_bucket := b, key_type := k, count := calls.count (b, k) }]) ∧
    ((b, k) ∉ calls →
      rowsFor b k (applyHourly SqliteStorage.in_memory calls).hourly_stats = []) := by
  have h := applyHourly_shape calls SqliteStorage.in_memory (fun _ _ => 0)
    (fun b2 k2 => by simp [SqliteStorage.in_memory, rowsFor]) b k
  simp only [Nat.zero_add] at h
  constructor
  · intro hmem
    rw [h]
    have hpos : 0 < calls.count (b, k) := List.count_pos_iff.2 hmem
    have : calls.count (b, k) ≠ 0 := by omega
    simp [this]
  · intro hmem
    rw [h]
    have : calls.count (b, k) = 0 := by
      rw [List.count_eq_zero]
      exact hmem
    simp [this]

/-- Witness for C7 at a concrete call sequence: two calls for one pair and
one for another give a single row of count two for the first pair. -/
theorem spec_c7_witness :
    rowsFor 0 "char" (applyHourly SqliteStorage.in_memory
        [(0, "char"), (0, "char"), (1, "arrow")]).hourly_stats =
      [{ hour_bucket := 0, key_type := "char",
         count := [((0 : Int), "char"), (0, "char"), (1, "arrow")].count ((0 : Int), "char") }] :=
  (spec_c7 [(0, "char"), (0, "char"), (1, "arrow")] 0 "char").1 (by simp)

end Kstrk
